import Mathlib

/-!
Verification development for the Flower interactive flow-field simulation
(Source/FlowerMain.cpp).  Floating-point arithmetic of the source is modelled
over the reals; machine integers are modelled as Nat/Int.  A 2D vector (Vec2)
is a pair of reals, and the vector field is a function from integer cell
coordinates to vectors.  Each definition below mirrors one function of the
source file.
-/

namespace Flower

noncomputable section

open Real

/-- Vec2 componentwise addition, mirroring Vec2 operator+. -/
def vadd (a b : ℝ × ℝ) : ℝ × ℝ := (a.1 + b.1, a.2 + b.2)

/-- Vec2 scaled by a scalar on the right, mirroring Vec2 operator* (float). -/
def vscale (a : ℝ × ℝ) (s : ℝ) : ℝ × ℝ := (a.1 * s, a.2 * s)

/-- Vec2 divided by a scalar, mirroring Vec2 operator/ (float). -/
def vdiv (a : ℝ × ℝ) (s : ℝ) : ℝ × ℝ := (a.1 / s, a.2 / s)

/-- Euclidean length of a Vec2, mirroring Vec2.length(). -/
def vlen (a : ℝ × ℝ) : ℝ := Real.sqrt (a.1 ^ 2 + a.2 ^ 2)

/-- Componentwise linear interpolation, mirroring the Rush lerp(x, y, t)
helper used by dampen: x + (y - x) * t. -/
def vlerp (a b : ℝ × ℝ) (t : ℝ) : ℝ × ℝ :=
  (a.1 + (b.1 - a.1) * t, a.2 + (b.2 - a.2) * t)

/-- A vector field state: cell (x, y) holds a 2D vector.  The source fixes
width = height = 512; definitions are parametric in W and H and theorems are
instantiated at 512 (or at the 4x4 scenario of the spec) where relevant. -/
def Field : Type := ℕ → ℕ → ℝ × ℝ

/-- Truncation toward zero, the rounding a C-style (u32) cast of a float
performs before the integer conversion. -/
def ftrunc (v : ℝ) : ℤ := if 0 ≤ v then ⌊v⌋ else -⌊-v⌋

/-- One axis of sample: the source computes (u32)(u * n) % n.  The float to
u32 conversion truncates toward zero; a negative truncated value cannot be
represented in u32 (undefined behaviour in the source), modelled here by
Int.toNat.  All theorems below evaluate this only where the conversion is
well defined. -/
def sampleIx (n : ℕ) (u : ℝ) : ℕ := (ftrunc (u * n)).toNat % n

/-- sample(vf, uv): reads the cell selected by sampleIx on each axis. -/
def sample (W H : ℕ) (vf : Field) (uv : ℝ × ℝ) : ℝ × ℝ :=
  vf (sampleIx W uv.1) (sampleIx H uv.2)

/-- The body of the dampen loop for one cell (x, y) holding vector v. -/
def dampenCell (W H : ℕ) (brushPos : ℝ × ℝ) (brushRadius : ℝ)
    (x y : ℕ) (v : ℝ × ℝ) : ℝ × ℝ :=
  let p : ℝ × ℝ := ((x : ℝ) / (W : ℝ), (y : ℝ) / (H : ℝ))
  let delta : ℝ × ℝ := (p.1 - brushPos.1, p.2 - brushPos.2)
  let absDelta : ℝ × ℝ := (|delta.1|, |delta.2|)
  if absDelta.1 ≤ brushRadius ∧ absDelta.2 ≤ brushRadius then
    let forceDir := vdiv absDelta brushRadius
    let forceLen := min 1 (vlen forceDir)
    vlerp (vscale v 0.8) v forceLen
  else v

/-- dampen(vf, brushPos, brushRadius): every cell is updated independently by
dampenCell (the source loop writes only cell (x, y) in iteration (x, y)). -/
def dampen (W H : ℕ) (vf : Field) (brushPos : ℝ × ℝ) (brushRadius : ℝ) :
    Field :=
  fun x y => dampenCell W H brushPos brushRadius x y (vf x y)

/-- The body of the comb loop for one cell (x, y) holding vector v, given the
precomputed stroke weight and stroke direction. -/
def combCell (W H : ℕ) (brushCur : ℝ × ℝ) (brushRadius strokeWeight : ℝ)
    (strokeDir : ℝ × ℝ) (x y : ℕ) (v : ℝ × ℝ) : ℝ × ℝ :=
  let p : ℝ × ℝ := ((x : ℝ) / (W : ℝ), (y : ℝ) / (H : ℝ))
  let delta : ℝ × ℝ := (p.1 - brushCur.1, p.2 - brushCur.2)
  let absDelta : ℝ × ℝ := (|delta.1|, |delta.2|)
  if absDelta.1 ≤ brushRadius ∧ absDelta.2 ≤ brushRadius then
    let forceDir := vdiv absDelta brushRadius
    let forceLen := min 1 (vlen forceDir)
    let combWeight := (1 - forceLen) * strokeWeight * (150 / (4 * brushRadius))
    let v2 := vadd v (vscale strokeDir combWeight)
    let vLength := vlen v2
    if 1 < vLength then vdiv v2 vLength else v2
  else v

/-- comb(vf, brushPrev, brushCur, brushRadius): early-out when the stroke
length is at most the 0.0001 threshold, otherwise update every cell
independently by combCell. -/
def comb (W H : ℕ) (vf : Field) (brushPrev brushCur : ℝ × ℝ)
    (brushRadius : ℝ) : Field :=
  let stroke : ℝ × ℝ := (brushCur.1 - brushPrev.1, brushCur.2 - brushPrev.2)
  let strokeLength := vlen stroke
  if strokeLength ≤ 0.0001 then vf
  else
    let strokeWeight := Real.rpow strokeLength 1.8
    let strokeDir := vdiv stroke strokeLength
    fun x y => combCell W H brushCur brushRadius strokeWeight strokeDir x y (vf x y)

/-- One particle of the Particles struct: position, velocity and remaining
lifetime (a u32 in the source, modelled as Nat). -/
structure Particle where
  pos : ℝ × ℝ
  vel : ℝ × ℝ
  life : ℕ

/-- The force constant of updateParticles (float forceScale = 0.002f). -/
def forceScale : ℝ := 0.002

/-- The friction constant of updateParticles (float friction = 0.1f). -/
def friction : ℝ := 0.1

/-- The force a particle receives in updateParticles: the field sampled at
its position scaled by forceScale when the position is strictly inside the
open unit square, zero otherwise. -/
def particleForce (W H : ℕ) (vf : Field) (pos : ℝ × ℝ) : ℝ × ℝ :=
  if 0 < pos.1 ∧ pos.1 < 1 ∧ 0 < pos.2 ∧ pos.2 < 1 then
    vscale (sample W H vf pos) forceScale
  else (0, 0)

/-- The body of the updateParticles loop for one particle.  rx and ry model
the two rng.getFloat(0, 1) draws and rl models the rng.getUint(0, 80) draw
made on the reseed path. -/
def stepParticle (W H : ℕ) (vf : Field) (rx ry : ℝ) (rl : ℕ)
    (pt : Particle) : Particle :=
  let force := particleForce W H vf pt.pos
  let pos1 := vadd pt.pos pt.vel
  let vel1 := vadd (vscale pt.vel friction) force
  if pt.life = 0 then
    { pos := (rx, ry)
      vel := vscale (sample W H vf (rx, ry)) forceScale
      life := rl }
  else
    { pos := pos1, vel := vel1, life := pt.life - 1 }

/-- The per-particle update written exactly as the numbered steps of the
specification (Step, section 4.2): 1. force from the pre-integration
position; 2. position += velocity using the previous velocity; 3. velocity =
velocity * 0.1 + force; 4. reseed when lifetime is 0, else decrement.  To be
compared with stepParticle, which is translated from the source. -/
def stepParticleSpec (W H : ℕ) (vf : Field) (rx ry : ℝ) (rl : ℕ)
    (pt : Particle) : Particle :=
  let force := if 0 < pt.pos.1 ∧ pt.pos.1 < 1 ∧ 0 < pt.pos.2 ∧ pt.pos.2 < 1
    then vscale (sample W H vf pt.pos) 0.002 else (0, 0)
  let afterIntegrate : Particle := { pt with pos := vadd pt.pos pt.vel }
  let afterFriction : Particle :=
    { afterIntegrate with vel := vadd (vscale afterIntegrate.vel 0.1) force }
  if afterFriction.life = 0 then
    { pos := (rx, ry)
      vel := vscale (sample W H vf (rx, ry)) 0.002
      life := rl }
  else
    { afterFriction with life := afterFriction.life - 1 }

/-- Rush clamp(v, lo, hi) as used for the brush radius. -/
def clamp (v lo hi : ℝ) : ℝ := min (max v lo) hi

/-- One frame of brush-radius handling in update(): when the mouse-wheel
delta is nonzero, add 0.0001 * delta and clamp to [0.01, 0.5]; otherwise the
radius is untouched. -/
def radiusStep (r : ℝ) (wheelDelta : ℤ) : ℝ :=
  if wheelDelta ≠ 0 then clamp (r + 0.0001 * (wheelDelta : ℝ)) 0.01 0.5
  else r

/-- The initial brush radius of State (float brushRadius = 0.1f). -/
def initialRadius : ℝ := 0.1

/-- The scaling factor dampen applies to a cell inside the footprint, as a
function of the axis distances to the brush center: lerp(v * 0.8, v, t)
equals v scaled by 0.8 + 0.2 * t where t = min 1 |absDelta / radius|. -/
def dampFactor (brushRadius adx ady : ℝ) : ℝ :=
  0.8 + 0.2 * min 1 (vlen (vdiv (adx, ady) brushRadius))

/-- A field whose every cell is (2, 0), a prior state with cell magnitudes
above 1 used to evaluate comb. -/
def bigField : Field := fun _ _ => (2, 0)

/-- A field holding the cell coordinates, so distinct cells hold distinct
vectors; used to evaluate sample. -/
def coordField : Field := fun x y => ((x : ℝ), (y : ℝ))

/-- The all-zero field of the end-to-end scenario of the spec. -/
def zeroField : Field := fun _ _ => (0, 0)

/-! Helper lemmas about vector length. -/

theorem vlen_nonneg (a : ℝ × ℝ) : 0 ≤ vlen a := Real.sqrt_nonneg _

theorem vlen_axis (a : ℝ) : vlen (a, 0) = |a| := by
  simp [vlen, Real.sqrt_sq_eq_abs]

theorem vlen_vscale (a : ℝ × ℝ) (s : ℝ) : vlen (vscale a s) = vlen a * |s| := by
  unfold vlen vscale
  rw [show (a.1 * s) ^ 2 + (a.2 * s) ^ 2 = (a.1 ^ 2 + a.2 ^ 2) * s ^ 2 by ring]
  rw [Real.sqrt_mul (by positivity), Real.sqrt_sq_eq_abs]

theorem vlen_vdiv (a : ℝ × ℝ) {s : ℝ} (hs : 0 < s) :
    vlen (vdiv a s) = vlen a / s := by
  unfold vlen vdiv
  rw [show (a.1 / s) ^ 2 + (a.2 / s) ^ 2 = (a.1 ^ 2 + a.2 ^ 2) / s ^ 2 by
    field_simp]
  rw [Real.sqrt_div (by positivity), Real.sqrt_sq hs.le]

theorem vlen_normalize (v : ℝ × ℝ) (h : 0 < vlen v) :
    vlen (vdiv v (vlen v)) = 1 := by
  rw [vlen_vdiv v h, div_self h.ne']

/-! Helper lemmas about dampen. -/

theorem dampenCell_outside (W H : ℕ) (c : ℝ × ℝ) (r : ℝ) (x y : ℕ)
    (v : ℝ × ℝ)
    (h : ¬ (|(x : ℝ) / (W : ℝ) - c.1| ≤ r ∧ |(y : ℝ) / (H : ℝ) - c.2| ≤ r)) :
    dampenCell W H c r x y v = v := by
  unfold dampenCell
  exact if_neg h

theorem dampenCell_inside (W H : ℕ) (c : ℝ × ℝ) (r : ℝ) (x y : ℕ)
    (v : ℝ × ℝ)
    (h : |(x : ℝ) / (W : ℝ) - c.1| ≤ r ∧ |(y : ℝ) / (H : ℝ) - c.2| ≤ r) :
    dampenCell W H c r x y v =
      vscale v (dampFactor r (|(x : ℝ) / (W : ℝ) - c.1|)
        (|(y : ℝ) / (H : ℝ) - c.2|)) := by
  unfold dampenCell dampFactor
  rw [if_pos h]
  unfold vlerp vscale
  rw [Prod.mk.injEq]
  constructor <;> ring

theorem dampFactor_nonneg_min (r adx ady : ℝ) :
    0 ≤ min 1 (vlen (vdiv (adx, ady) r)) :=
  le_min (by norm_num) (vlen_nonneg _)

theorem dampFactor_le_one (r adx ady : ℝ) : dampFactor r adx ady ≤ 1 := by
  unfold dampFactor
  have h := min_le_left 1 (vlen (vdiv (adx, ady) r))
  nlinarith

theorem dampFactor_ge (r adx ady : ℝ) : 0.8 ≤ dampFactor r adx ady := by
  unfold dampFactor
  have h := dampFactor_nonneg_min r adx ady
  nlinarith

theorem dampFactor_edge_x (r ady : ℝ) (hr : 0 < r) :
    dampFactor r r ady = 1 := by
  unfold dampFactor
  have h1 : (1 : ℝ) ≤ vlen (vdiv (r, ady) r) := by
    rw [vlen_vdiv _ hr]
    rw [le_div_iff₀ hr, one_mul]
    unfold vlen
    calc r = Real.sqrt (r ^ 2) := (Real.sqrt_sq hr.le).symm
    _ ≤ Real.sqrt (r ^ 2 + ady ^ 2) := Real.sqrt_le_sqrt (by nlinarith)
  rw [min_eq_left h1]
  norm_num

theorem dampFactor_edge_y (r adx : ℝ) (hr : 0 < r) :
    dampFactor r adx r = 1 := by
  unfold dampFactor
  have h1 : (1 : ℝ) ≤ vlen (vdiv (adx, r) r) := by
    rw [vlen_vdiv _ hr]
    rw [le_div_iff₀ hr, one_mul]
    unfold vlen
    calc r = Real.sqrt (r ^ 2) := (Real.sqrt_sq hr.le).symm
    _ ≤ Real.sqrt (adx ^ 2 + r ^ 2) := Real.sqrt_le_sqrt (by nlinarith)
  rw [min_eq_left h1]
  norm_num

theorem vscale_one (v : ℝ × ℝ) : vscale v 1 = v := by
  unfold vscale
  simp

/-! Helper lemmas about comb. -/

theorem combCell_le_one (W H : ℕ) (c : ℝ × ℝ) (r sw : ℝ) (sd : ℝ × ℝ)
    (x y : ℕ) (v : ℝ × ℝ) (hv : vlen v ≤ 1) :
    vlen (combCell W H c r sw sd x y v) ≤ 1 := by
  unfold combCell
  dsimp only
  split_ifs with h1 h2
  · rw [vlen_normalize _ (lt_trans one_pos h2)]
  · exact le_of_not_lt h2
  · exact hv

theorem comb_outside (W H : ℕ) (vf : Field) (pv cv : ℝ × ℝ) (r : ℝ)
    (x y : ℕ)
    (h : r < |(x : ℝ) / (W : ℝ) - cv.1| ∨ r < |(y : ℝ) / (H : ℝ) - cv.2|) :
    comb W H vf pv cv r x y = vf x y := by
  have hout : ¬ (|(x : ℝ) / (W : ℝ) - cv.1| ≤ r ∧
      |(y : ℝ) / (H : ℝ) - cv.2| ≤ r) := by
    rcases h with h | h <;> · rintro ⟨h1, h2⟩; linarith
  simp only [comb]
  split_ifs with hth
  · rfl
  · unfold combCell
    exact if_neg hout

theorem dampen_outside (W H : ℕ) (vf : Field) (c : ℝ × ℝ) (r : ℝ)
    (x y : ℕ)
    (h : r < |(x : ℝ) / (W : ℝ) - c.1| ∨ r < |(y : ℝ) / (H : ℝ) - c.2|) :
    dampen W H vf c r x y = vf x y := by
  have hout : ¬ (|(x : ℝ) / (W : ℝ) - c.1| ≤ r ∧
      |(y : ℝ) / (H : ℝ) - c.2| ≤ r) := by
    rcases h with h | h <;> · rintro ⟨h1, h2⟩; linarith
  unfold dampen
  exact dampenCell_outside W H c r x y (vf x y) hout

/-- C6: after Dampen(center, r) with r > 0, no cell vector magnitude
increases; a cell whose axis distance to the center equals r on either axis
is left exactly unchanged; and the damping factor is monotone in the axis
distances, so cells nearer the brush center are damped more strongly toward
the 80 percent magnitude floor. -/
theorem dampen_no_increase (W H : ℕ) (vf : Field) (c : ℝ × ℝ) (r : ℝ)
    (hr : 0 < r) :
    (∀ x y : ℕ, vlen (dampen W H vf c r x y) ≤ vlen (vf x y)) ∧
    (∀ x y : ℕ,
      |(x : ℝ) / (W : ℝ) - c.1| = r ∨ |(y : ℝ) / (H : ℝ) - c.2| = r →
      dampen W H vf c r x y = vf x y) ∧
    (∀ a1 b1 a2 b2 : ℝ, 0 ≤ a1 → a1 ≤ a2 → 0 ≤ b1 → b1 ≤ b2 →
      dampFactor r a1 b1 ≤ dampFactor r a2 b2) := by
  refine ⟨?_, ?_, ?_⟩
  · intro x y
    unfold dampen
    by_cases h : |(x : ℝ) / (W : ℝ) - c.1| ≤ r ∧ |(y : ℝ) / (H : ℝ) - c.2| ≤ r
    · rw [dampenCell_inside W H c r x y (vf x y) h, vlen_vscale]
      have h8 := dampFactor_ge r (|(x : ℝ) / (W : ℝ) - c.1|)
        (|(y : ℝ) / (H : ℝ) - c.2|)
      have h1 := dampFactor_le_one r (|(x : ℝ) / (W : ℝ) - c.1|)
        (|(y : ℝ) / (H : ℝ) - c.2|)
      rw [abs_of_nonneg (by linarith)]
      exact mul_le_of_le_one_right (vlen_nonneg _) h1
    · rw [dampenCell_outside W H c r x y (vf x y) h]
  · intro x y hedge
    unfold dampen
    by_cases h : |(x : ℝ) / (W : ℝ) - c.1| ≤ r ∧ |(y : ℝ) / (H : ℝ) - c.2| ≤ r
    · rw [dampenCell_inside W H c r x y (vf x y) h]
      rcases hedge with hx | hy
      · rw [hx, dampFactor_edge_x r _ hr, vscale_one]
      · rw [hy, dampFactor_edge_y r _ hr, vscale_one]
    · exact dampenCell_outside W H c r x y (vf x y) h
  · intro a1 b1 a2 b2 ha1 ha12 hb1 hb12
    unfold dampFactor
    have h1 : vlen (vdiv (a1, b1) r) ≤ vlen (vdiv (a2, b2) r) := by
      rw [vlen_vdiv _ hr, vlen_vdiv _ hr]
      unfold vlen
      gcongr
    have h2 := min_le_min (le_refl (1 : ℝ)) h1
    nlinarith

/-- Witness for C6 at a concrete brush call. -/
theorem dampen_no_increase_witness :
    (0 : ℝ) < 1 ∧
    ((∀ x y : ℕ, vlen (dampen 512 512 zeroField (0, 0) 1 x y) ≤
        vlen (zeroField x y)) ∧
    (∀ x y : ℕ,
      |(x : ℝ) / (512 : ℝ) - (0, (0 : ℝ)).1| = 1 ∨
        |(y : ℝ) / (512 : ℝ) - (0, (0 : ℝ)).2| = 1 →
      dampen 512 512 zeroField (0, 0) 1 x y = zeroField x y) ∧
    (∀ a1 b1 a2 b2 : ℝ, 0 ≤ a1 → a1 ≤ a2 → 0 ≤ b1 → b1 ≤ b2 →
      dampFactor 1 a1 b1 ≤ dampFactor 1 a2 b2)) :=
  ⟨one_pos, dampen_no_increase 512 512 zeroField (0, 0) 1 one_pos⟩

/-- C10: inside the footprint, dampen only rescales the cell vector: the new
vector is the old one multiplied by the scalar dampFactor, which lies in
[0.8, 1]; so the direction is unchanged and the magnitude shrinks by at most
20 percent. -/
theorem dampen_scales_never_rotates (W H : ℕ) (vf : Field) (c : ℝ × ℝ)
    (r : ℝ) (x y : ℕ)
    (h : |(x : ℝ) / (W : ℝ) - c.1| ≤ r ∧ |(y : ℝ) / (H : ℝ) - c.2| ≤ r) :
    dampen W H vf c r x y =
      vscale (vf x y) (dampFactor r (|(x : ℝ) / (W : ℝ) - c.1|)
        (|(y : ℝ) / (H : ℝ) - c.2|)) ∧
    0.8 ≤ dampFactor r (|(x : ℝ) / (W : ℝ) - c.1|)
        (|(y : ℝ) / (H : ℝ) - c.2|) ∧
    dampFactor r (|(x : ℝ) / (W : ℝ) - c.1|)
        (|(y : ℝ) / (H : ℝ) - c.2|) ≤ 1 ∧
    vlen (dampen W H vf c r x y) =
      vlen (vf x y) * dampFactor r (|(x : ℝ) / (W : ℝ) - c.1|)
        (|(y : ℝ) / (H : ℝ) - c.2|) := by
  have heq : dampen W H vf c r x y =
      vscale (vf x y) (dampFactor r (|(x : ℝ) / (W : ℝ) - c.1|)
        (|(y : ℝ) / (H : ℝ) - c.2|)) := by
    unfold dampen
    exact dampenCell_inside W H c r x y (vf x y) h
  have h8 := dampFactor_ge r (|(x : ℝ) / (W : ℝ) - c.1|)
    (|(y : ℝ) / (H : ℝ) - c.2|)
  refine ⟨heq, h8, dampFactor_le_one _ _ _, ?_⟩
  rw [heq, vlen_vscale, abs_of_nonneg (by linarith)]

/-- Witness for C10 at a concrete cell of a concrete brush call. -/
theorem dampen_scales_never_rotates_witness :
    (|(0 : ℕ) / (512 : ℝ) - ((0, (0 : ℝ)).1)| ≤ 1 ∧
       |(0 : ℕ) / (512 : ℝ) - ((0, (0 : ℝ)).2)| ≤ 1) ∧
    (dampen 512 512 bigField (0, 0) 1 0 0 =
      vscale (bigField 0 0) (dampFactor 1 (|(0 : ℕ) / (512 : ℝ) - (0, (0 : ℝ)).1|)
        (|(0 : ℕ) / (512 : ℝ) - (0, (0 : ℝ)).2|)) ∧
    0.8 ≤ dampFactor 1 (|(0 : ℕ) / (512 : ℝ) - (0, (0 : ℝ)).1|)
        (|(0 : ℕ) / (512 : ℝ) - (0, (0 : ℝ)).2|) ∧
    dampFactor 1 (|(0 : ℕ) / (512 : ℝ) - (0, (0 : ℝ)).1|)
        (|(0 : ℕ) / (512 : ℝ) - (0, (0 : ℝ)).2|) ≤ 1 ∧
    vlen (dampen 512 512 bigField (0, 0) 1 0 0) =
      vlen (bigField 0 0) * dampFactor 1 (|(0 : ℕ) / (512 : ℝ) - (0, (0 : ℝ)).1|)
        (|(0 : ℕ) / (512 : ℝ) - (0, (0 : ℝ)).2|)) :=
  ⟨by norm_num,
    dampen_scales_never_rotates 512 512 bigField (0, 0) 1 0 0 (by norm_num)⟩

/-- C1 counterexample: a Comb call with radius 1/10 > 0 and a stroke of
length 1/10 (above threshold) leaves the cell (0, 0), which is outside the
brush footprint, at its prior magnitude 2 > 1: the magnitude bound does not
hold regardless of the prior contents of the field. -/
theorem comb_magnitude_bound_cex :
    1 < vlen (comb 512 512 bigField (2 / 5, 1 / 2) (1 / 2, 1 / 2)
      (1 / 10) 0 0) ∧ (0 : ℝ) < 1 / 10 := by
  constructor
  · rw [comb_outside 512 512 bigField (2 / 5, 1 / 2) (1 / 2, 1 / 2)
      (1 / 10) 0 0 (by left; norm_num [abs_of_nonneg])]
    have h2 : bigField 0 0 = ((2 : ℝ), (0 : ℝ)) := rfl
    rw [h2, vlen_axis]
    norm_num
  · norm_num

/-- C1 (amended): for every Comb call with radius > 0 on a field whose every
cell has magnitude at most 1, every cell of the field has magnitude at most 1
after the call, regardless of the stroke.  Cells the brush touches are
renormalized to length at most 1 and all other cells are unchanged, so the
bound is preserved rather than established from arbitrary prior contents. -/
theorem comb_magnitude_bound (W H : ℕ) (vf : Field) (pv cv : ℝ × ℝ)
    (r : ℝ) (hr : 0 < r) (hvf : ∀ x y : ℕ, vlen (vf x y) ≤ 1) :
    ∀ x y : ℕ, vlen (comb W H vf pv cv r x y) ≤ 1 := by
  intro x y
  have hr2 : r ≠ 0 := hr.ne'
  simp only [comb]
  split_ifs with hth
  · exact hvf x y
  · exact combCell_le_one W H cv r _ _ x y (vf x y) (hvf x y)

/-- Witness for the amended C1 at a concrete comb call. -/
theorem comb_magnitude_bound_witness :
    ((0 : ℝ) < 1 / 10 ∧ (∀ x y : ℕ, vlen (zeroField x y) ≤ 1)) ∧
    (∀ x y : ℕ, vlen (comb 512 512 zeroField (2 / 5, 1 / 2) (1 / 2, 1 / 2)
      (1 / 10) x y) ≤ 1) := by
  have hz : ∀ x y : ℕ, vlen (zeroField x y) ≤ 1 := by
    intro x y
    have h0 : zeroField x y = ((0 : ℝ), (0 : ℝ)) := rfl
    rw [h0, vlen_axis]
    norm_num
  exact ⟨⟨by norm_num, hz⟩,
    comb_magnitude_bound 512 512 zeroField (2 / 5, 1 / 2) (1 / 2, 1 / 2)
      (1 / 10) (by norm_num) hz⟩

/-- C7: a Comb call whose stroke has length at most the 0.0001 threshold
leaves the field exactly unchanged, for any field state and radius. -/
theorem comb_noop_below_threshold (W H : ℕ) (vf : Field) (pv cv : ℝ × ℝ)
    (r : ℝ) (h : vlen (cv.1 - pv.1, cv.2 - pv.2) ≤ 0.0001) :
    comb W H vf pv cv r = vf := by
  simp only [comb]
  rw [if_pos h]

/-- Witness for C7: a zero-length stroke leaves a concrete field unchanged. -/
theorem comb_noop_below_threshold_witness :
    vlen ((1 : ℝ) / 2 - 1 / 2, (1 : ℝ) / 2 - 1 / 2) ≤ 0.0001 ∧
    comb 512 512 bigField (1 / 2, 1 / 2) (1 / 2, 1 / 2) (1 / 10) =
      bigField := by
  have h : vlen ((1 : ℝ) / 2 - 1 / 2, (1 : ℝ) / 2 - 1 / 2) ≤ 0.0001 := by
    rw [show ((1 : ℝ) / 2 - 1 / 2, (1 : ℝ) / 2 - 1 / 2) =
      ((0 : ℝ), (0 : ℝ)) by norm_num]
    rw [vlen_axis]
    norm_num
  exact ⟨h, comb_noop_below_threshold 512 512 bigField (1 / 2, 1 / 2)
    (1 / 2, 1 / 2) (1 / 10) h⟩

/-- C8: a cell whose axis-aligned distance from the brush center exceeds the
radius on either axis keeps its pre-call vector bit for bit, under both brush
operators. -/
theorem brush_frame (W H : ℕ) (vf : Field) (pv c : ℝ × ℝ) (r : ℝ)
    (x y : ℕ)
    (h : r < |(x : ℝ) / (W : ℝ) - c.1| ∨ r < |(y : ℝ) / (H : ℝ) - c.2|) :
    dampen W H vf c r x y = vf x y ∧ comb W H vf pv c r x y = vf x y :=
  ⟨dampen_outside W H vf c r x y h, comb_outside W H vf pv c r x y h⟩

/-- Witness for C8 in the 4x4 zero-field scenario of the spec: combing from
(0.1, 0.1) to (0.3, 0.1) with radius 0.2 leaves cell (0, 0), which lies
outside the footprint, exactly (0, 0). -/
theorem brush_frame_witness :
    ((1 : ℝ) / 5 < |(0 : ℕ) / (4 : ℝ) - ((3 : ℝ) / 10, (1 : ℝ) / 10).1| ∨
      (1 : ℝ) / 5 < |(0 : ℕ) / (4 : ℝ) - ((3 : ℝ) / 10, (1 : ℝ) / 10).2|) ∧
    (dampen 4 4 zeroField (3 / 10, 1 / 10) (1 / 5) 0 0 = zeroField 0 0 ∧
      comb 4 4 zeroField (1 / 10, 1 / 10) (3 / 10, 1 / 10) (1 / 5) 0 0 =
        zeroField 0 0) :=
  ⟨Or.inl (by norm_num [abs_of_nonneg]),
    brush_frame 4 4 zeroField (1 / 10, 1 / 10) (3 / 10, 1 / 10) (1 / 5) 0 0
      (Or.inl (by norm_num [abs_of_nonneg]))⟩

/-! Helper lemmas about sampling. -/

theorem sampleIx_shift (n : ℕ) (u : ℝ) (hu : 0 ≤ u) :
    sampleIx n (u + 1) = sampleIx n u := by
  unfold sampleIx ftrunc
  have h1 : (0 : ℝ) ≤ u * n := by positivity
  have h2 : (0 : ℝ) ≤ (u + 1) * n := by positivity
  rw [if_pos h1, if_pos h2]
  have h3 : (u + 1) * ((n : ℕ) : ℝ) = u * n + (n : ℕ) := by ring
  rw [h3, Int.floor_add_nat]
  rw [Int.toNat_add_nat (Int.floor_nonneg.mpr h1) n]
  exact Nat.add_mod_right _ n

/-- C2 counterexample: at position p = (-1/1024, 0) the product p.x * 512 is
exactly -1/2; the float to u32 conversion truncates toward zero and yields
cell x index 0, while p + (1, 0) lands in cell 511: negative positions do not
wrap like their unit-translated counterparts (the cast truncates toward zero
instead of flooring). -/
theorem sample_wraparound_cex :
    sample 512 512 coordField (-(1 / 1024) + 1, (0 : ℝ)) ≠
      sample 512 512 coordField (-(1 / 1024), (0 : ℝ)) := by
  have e1 : sampleIx 512 (-(1 / 1024 : ℝ) + 1) = 511 := by
    unfold sampleIx ftrunc
    rw [if_pos (by norm_num)]
    rw [show (-(1 / 1024 : ℝ) + 1) * ((512 : ℕ) : ℝ) = 1023 / 2 by
      push_cast; ring]
    rw [show ⌊(1023 / 2 : ℝ)⌋ = 511 from by
      rw [Int.floor_eq_iff]; norm_num]
    decide
  have e2 : sampleIx 512 (-(1 / 1024 : ℝ)) = 0 := by
    unfold sampleIx ftrunc
    rw [if_neg (by norm_num)]
    rw [show -(-(1 / 1024 : ℝ) * ((512 : ℕ) : ℝ)) = 1 / 2 by push_cast; ring]
    rw [show ⌊(1 / 2 : ℝ)⌋ = 0 from by rw [Int.floor_eq_iff]; norm_num]
    norm_num
  have e3 : sampleIx 512 (0 : ℝ) = 0 := by
    unfold sampleIx ftrunc
    norm_num
  unfold sample
  dsimp only
  rw [e1, e2, e3]
  intro h
  have h1 : ((511 : ℕ) : ℝ) = ((0 : ℕ) : ℝ) := congrArg Prod.fst h
  norm_num at h1

/-- C2 (amended): for every position p with nonnegative coordinates,
Sample(p) = Sample(p + (1, 0)) = Sample(p + (0, 1)): on nonnegative inputs
the truncating cast agrees with floor, so the grid behaves as a torus there.
For negative coordinates the cast truncates toward zero (and the u32
conversion is undefined below -1), so such positions do not wrap. -/
theorem sample_wraparound (W H : ℕ) (vf : Field) (p : ℝ × ℝ)
    (hx : 0 ≤ p.1) (hy : 0 ≤ p.2) :
    sample W H vf (p.1 + 1, p.2) = sample W H vf p ∧
    sample W H vf (p.1, p.2 + 1) = sample W H vf p := by
  unfold sample
  dsimp only
  rw [sampleIx_shift W p.1 hx, sampleIx_shift H p.2 hy]
  exact ⟨rfl, rfl⟩

/-- Witness for the amended C2 at a concrete position. -/
theorem sample_wraparound_witness :
    ((0 : ℝ) ≤ ((1 / 2 : ℝ), (1 / 4 : ℝ)).1 ∧
      (0 : ℝ) ≤ ((1 / 2 : ℝ), (1 / 4 : ℝ)).2) ∧
    (sample 512 512 coordField (((1 / 2 : ℝ), (1 / 4 : ℝ)).1 + 1,
        ((1 / 2 : ℝ), (1 / 4 : ℝ)).2) =
      sample 512 512 coordField ((1 / 2 : ℝ), (1 / 4 : ℝ)) ∧
    sample 512 512 coordField (((1 / 2 : ℝ), (1 / 4 : ℝ)).1,
        ((1 / 2 : ℝ), (1 / 4 : ℝ)).2 + 1) =
      sample 512 512 coordField ((1 / 2 : ℝ), (1 / 4 : ℝ))) :=
  ⟨⟨by norm_num, by norm_num⟩,
    sample_wraparound 512 512 coordField ((1 / 2 : ℝ), (1 / 4 : ℝ))
      (by norm_num) (by norm_num)⟩

/-- C3: the per-particle update of updateParticles coincides with the
specification order: force computed from the pre-integration position, then
position += velocity with the previous velocity, then velocity =
velocity * 0.1 + force, and the reseed or lifetime decrement happens after
this integration. -/
theorem step_update_order (W H : ℕ) (vf : Field) (rx ry : ℝ) (rl : ℕ)
    (pt : Particle) :
    stepParticle W H vf rx ry rl pt = stepParticleSpec W H vf rx ry rl pt := by
  unfold stepParticle stepParticleSpec particleForce forceScale friction
  rfl

/-- C4: a particle receives a nonzero force only when its position lies
strictly inside the open unit square; whenever the strict inequalities fail
the force contribution of that step is the zero vector. -/
theorem particle_force_gating (W H : ℕ) (vf : Field) (pos : ℝ × ℝ)
    (h : ¬ (0 < pos.1 ∧ pos.1 < 1 ∧ 0 < pos.2 ∧ pos.2 < 1)) :
    particleForce W H vf pos = (0, 0) := by
  unfold particleForce
  exact if_neg h

/-- Witness for C4 at the boundary position (1.0, 0.5) of the claim. -/
theorem particle_force_gating_witness :
    ¬ (0 < ((1 : ℝ), (1 / 2 : ℝ)).1 ∧ ((1 : ℝ), (1 / 2 : ℝ)).1 < 1 ∧
      0 < ((1 : ℝ), (1 / 2 : ℝ)).2 ∧ ((1 : ℝ), (1 / 2 : ℝ)).2 < 1) ∧
    particleForce 512 512 coordField ((1 : ℝ), (1 / 2 : ℝ)) = (0, 0) :=
  ⟨by norm_num,
    particle_force_gating 512 512 coordField ((1 : ℝ), (1 / 2 : ℝ))
      (by norm_num)⟩

/-- C5: in one Step, a particle with lifetime 0 is reseeded: its new position
is the pair of fresh uniform draws and lies in the half-open unit square, its
new velocity is the field sampled at that new position times the force
constant (with nonnegative magnitude), and its new lifetime is the fresh draw
from [0, 80); a particle with nonzero lifetime has its lifetime decremented
by exactly one. -/
theorem particle_lifetime_cycle (W H : ℕ) (vf : Field) (rx ry : ℝ)
    (rl : ℕ) (pt : Particle) (hrx0 : 0 ≤ rx) (hrx1 : rx < 1)
    (hry0 : 0 ≤ ry) (hry1 : ry < 1) (hrl : rl < 80) :
    (pt.life = 0 →
      (stepParticle W H vf rx ry rl pt).pos = (rx, ry) ∧
      0 ≤ (stepParticle W H vf rx ry rl pt).pos.1 ∧
      (stepParticle W H vf rx ry rl pt).pos.1 < 1 ∧
      0 ≤ (stepParticle W H vf rx ry rl pt).pos.2 ∧
      (stepParticle W H vf rx ry rl pt).pos.2 < 1 ∧
      (stepParticle W H vf rx ry rl pt).vel =
        vscale (sample W H vf (rx, ry)) forceScale ∧
      0 ≤ vlen (stepParticle W H vf rx ry rl pt).vel ∧
      (stepParticle W H vf rx ry rl pt).life = rl ∧
      (stepParticle W H vf rx ry rl pt).life < 80) ∧
    (pt.life ≠ 0 →
      (stepParticle W H vf rx ry rl pt).life = pt.life - 1) := by
  constructor
  · intro h0
    unfold stepParticle
    rw [if_pos h0]
    exact ⟨rfl, hrx0, hrx1, hry0, hry1, rfl, vlen_nonneg _, rfl, hrl⟩
  · intro h0
    unfold stepParticle
    rw [if_neg h0]

/-- Witness for C5 at a concrete particle whose lifetime is 0. -/
theorem particle_lifetime_cycle_witness :
    ((0 : ℝ) ≤ 0 ∧ (0 : ℝ) < 1 ∧ (0 : ℕ) < 80) ∧
    ((Particle.mk ((0 : ℝ), (0 : ℝ)) ((0 : ℝ), (0 : ℝ)) 0).life = 0 →
      (stepParticle 512 512 coordField 0 0 0
        (Particle.mk ((0 : ℝ), (0 : ℝ)) ((0 : ℝ), (0 : ℝ)) 0)).pos =
        ((0 : ℝ), (0 : ℝ)) ∧
      (stepParticle 512 512 coordField 0 0 0
        (Particle.mk ((0 : ℝ), (0 : ℝ)) ((0 : ℝ), (0 : ℝ)) 0)).life < 80) := by
  have h := particle_lifetime_cycle 512 512 coordField 0 0 0
    (Particle.mk ((0 : ℝ), (0 : ℝ)) ((0 : ℝ), (0 : ℝ)) 0)
    le_rfl one_pos le_rfl one_pos (by norm_num)
  refine ⟨⟨le_rfl, one_pos, by norm_num⟩, ?_⟩
  intro h0
  have h1 := h.1 h0
  exact ⟨h1.1, h1.2.2.2.2.2.2.2.2⟩

/-- C9: starting from the initial radius 0.1, any sequence of per-frame
mouse-wheel adjustments (each frame adding 0.0001 * delta and clamping when
the delta is nonzero) keeps the brush radius inside [0.01, 0.5]. -/
theorem radius_clamp (ds : List ℤ) :
    0.01 ≤ List.foldl radiusStep initialRadius ds ∧
    List.foldl radiusStep initialRadius ds ≤ 0.5 := by
  have key : ∀ (l : List ℤ) (r : ℝ), 0.01 ≤ r → r ≤ 0.5 →
      0.01 ≤ List.foldl radiusStep r l ∧ List.foldl radiusStep r l ≤ 0.5 := by
    intro l
    induction l with
    | nil => intro r h1 h2; exact ⟨h1, h2⟩
    | cons d t ih =>
      intro r h1 h2
      have h3 : 0.01 ≤ radiusStep r d ∧ radiusStep r d ≤ 0.5 := by
        unfold radiusStep clamp
        split_ifs with hd
        · exact ⟨le_min (le_max_right _ _) (by norm_num), min_le_right _ _⟩
        · exact ⟨h1, h2⟩
      simpa using ih (radiusStep r d) h3.1 h3.2
  exact key ds initialRadius (by norm_num [initialRadius])
    (by norm_num [initialRadius])

end

end Flower
